import Mathlib

/-!
Shallow embedding of the AR-prediction core (ARModel.cpp, main.cpp) of the
AR_Prediction repository.  Machine doubles are modelled as exact rationals;
series are lists of rationals; the Levinson-Durbin working arrays `a`, `e`
are modelled as total functions `ℕ → ℚ` initialised to zero, matching the
zero-initialised C++ vectors.
-/

namespace ARPrediction

/-- Failure kinds reported by `ARModel::computeCoefficients` (spec names:
`InsufficientData` for "Not enough data", `DegenerateAutocorrelation` for
"Zero lag autocorrelation"). -/
inductive FitError where
  | InsufficientData
  | DegenerateAutocorrelation
deriving DecidableEq

/-- `ARModel::computeAutocorrelation`: entry `lag` is
`(Σ_{i=lag}^{n-1} data[i]·data[i-lag]) / n`, for `lag = 0..order`. -/
def computeAutocorrelation (data : List ℚ) (order : ℕ) : List ℚ :=
  (List.range (order + 1)).map fun lag =>
    ((List.range' lag (data.length - lag)).map
      (fun i => data.getD i 0 * data.getD (i - lag) 0)).sum / (data.length : ℚ)

/-- State of the Levinson-Durbin working arrays `a` and `e`. -/
structure LDState where
  a : ℕ → ℚ
  e : ℕ → ℚ

/-- The reflection coefficient `lambda` computed at step `k`:
`(r[k] - Σ_{j=1}^{k-1} a[j]·r[k-j]) / e[k-1]`. -/
def lamOf (r : List ℚ) (st : LDState) (k : ℕ) : ℚ :=
  (r.getD k 0 -
    ((List.range' 1 (k - 1)).map (fun j => st.a j * r.getD (k - j) 0)).sum) / st.e (k - 1)

/-- The inner coefficient update loop of the C++ code: for `j = 1..k-1`
in ascending order, `a[j] -= lam * a[k-j]`, performed in place — a read
`a[k-j]` with `k-j < j` sees the already-updated value. -/
def ldInner (lam : ℚ) (k : ℕ) (a : ℕ → ℚ) : ℕ → ℚ :=
  (List.range' 1 (k - 1)).foldl
    (fun a j => fun i => if i = j then a j - lam * a (k - j) else a i) a

/-- One iteration (`k`) of the C++ Levinson-Durbin loop body. -/
def ldStep (r : List ℚ) (st : LDState) (k : ℕ) : LDState :=
  let lam := lamOf r st k
  let a1 : ℕ → ℚ := fun i => if i = k then lam else st.a i
  { a := ldInner lam k a1
    e := fun i => if i = k then st.e (k - 1) * (1 - lam * lam) else st.e i }

/-- Initial state: `a[0] = 1`, `e[0] = r[0]`, all other entries `0`. -/
def ldInit (r : List ℚ) : LDState :=
  { a := fun i => if i = 0 then 1 else 0
    e := fun i => if i = 0 then r.getD 0 0 else 0 }

/-- The full Levinson-Durbin loop of `computeCoefficients`: steps `k = 1..order`. -/
def levinsonDurbin (r : List ℚ) (order : ℕ) : LDState :=
  (List.range' 1 order).foldl (ldStep r) (ldInit r)

/-- `ARModel::computeCoefficients`: guards, Levinson-Durbin loop, and
extraction of `coefficients[i] = a[i+1]`. -/
def computeCoefficients (data : List ℚ) (order : ℕ) : Except FitError (List ℚ) :=
  if data.length < order then .error .InsufficientData
  else
    let r := computeAutocorrelation data order
    if r.getD 0 0 = 0 then .error .DegenerateAutocorrelation
    else
      let st := levinsonDurbin r order
      .ok ((List.range order).map fun i => st.a (i + 1))

/-- Reference step following the spec's words: set `a[k] = lambda`, then
`a[j] -= lambda·a[k-j]` for `j = 1..k-1` "(simultaneous, using pre-update
values)" — every read `a[k-j]` takes the snapshot of `a` before the update. -/
def ldStepRef (r : List ℚ) (st : LDState) (k : ℕ) : LDState :=
  let lam := lamOf r st k
  { a := fun i =>
      if i = k then lam
      else if 1 ≤ i ∧ i < k then st.a i - lam * st.a (k - i)
      else st.a i
    e := fun i => if i = k then st.e (k - 1) * (1 - lam * lam) else st.e i }

/-- Reference Levinson-Durbin recursion with the simultaneous inner update. -/
def levinsonDurbinRef (r : List ℚ) (order : ℕ) : LDState :=
  (List.range' 1 order).foldl (ldStepRef r) (ldInit r)

/-- Reference coefficient computation: identical guards and extraction, but
using the simultaneous-update recursion described by the spec. -/
def computeCoefficientsRef (data : List ℚ) (order : ℕ) : Except FitError (List ℚ) :=
  if data.length < order then .error .InsufficientData
  else
    let r := computeAutocorrelation data order
    if r.getD 0 0 = 0 then .error .DegenerateAutocorrelation
    else
      let st := levinsonDurbinRef r order
      .ok ((List.range order).map fun i => st.a (i + 1))

/-- The fitted-model record of `ARModel`: the series `data_`, the order
`order_` and the coefficient vector `coefficients_`. -/
structure ARModel where
  data_ : List ℚ
  order_ : ℕ
  coefficients_ : List ℚ
deriving DecidableEq

/-- `ARModel::forwardPredict`: `0` when `data_.size() < order_`, otherwise
`Σ_{i=0}^{order-1} coefficients[i] · data[n-1-i]`. -/
def forwardPredict (m : ARModel) : ℚ :=
  if m.data_.length < m.order_ then 0
  else ((List.range m.order_).map fun i =>
    m.coefficients_.getD i 0 * m.data_.getD (m.data_.length - 1 - i) 0).sum

/-- The sliding-window dot product of `forwardPredictSteps`:
`Σ_{i=0}^{order-1} coefficients[i] · window[order-1-i]`. -/
def predictFromWindow (coeffs window : List ℚ) (order : ℕ) : ℚ :=
  ((List.range order).map fun i => coeffs.getD i 0 * window.getD (order - 1 - i) 0).sum

/-- `ARModel::forwardPredictSteps`: empty when `data_.size() < order_`;
otherwise start from the trailing `order_` observations and, `k` times,
predict from the window, emit the prediction, and slide the window by
dropping its oldest entry and appending the prediction. -/
def forwardPredictSteps (m : ARModel) (k : ℕ) : List ℚ :=
  if m.data_.length < m.order_ then []
  else
    ((List.range k).foldl
      (fun (st : List ℚ × List ℚ) _ =>
        let pred := predictFromWindow m.coefficients_ st.1 m.order_
        (st.1.tail ++ [pred], st.2 ++ [pred]))
      (m.data_.drop (m.data_.length - m.order_), ([] : List ℚ))).2

/-- The (MSE, MAPE) part of `ErrorMetrics`; `rmse` is derived separately
since the square root leaves the rationals. -/
structure ErrorMetrics where
  mse : ℚ
  mape : ℚ
deriving DecidableEq

/-- `computeErrors` from main.cpp: all-zero record when the lengths differ or
the forecast is empty; otherwise `mse = Σ diff²/n` and
`mape = (Σ_{actual[i] ≠ 0} |diff/actual[i]|·100) / n`. -/
def computeErrors (forecast actual : List ℚ) : ErrorMetrics :=
  if forecast.length ≠ actual.length ∨ forecast = [] then ⟨0, 0⟩
  else
    { mse := ((List.range forecast.length).map fun i =>
        (forecast.getD i 0 - actual.getD i 0) * (forecast.getD i 0 - actual.getD i 0)).sum
        / (forecast.length : ℚ)
      mape := ((List.range forecast.length).map fun i =>
        if actual.getD i 0 ≠ 0
        then |(forecast.getD i 0 - actual.getD i 0) / actual.getD i 0| * 100
        else 0).sum / (forecast.length : ℚ) }

/-- The `rmse` field of `computeErrors`: `sqrt(mse)`. -/
noncomputable def rmse (forecast actual : List ℚ) : ℝ :=
  Real.sqrt ((computeErrors forecast actual).mse : ℝ)

/-- The differencing loop of main.cpp:
`diffData[i] = trainPrices[i+1] - trainPrices[i]` for `i = 0..n-2`. -/
def difference (levels : List ℚ) : List ℚ :=
  (List.range (levels.length - 1)).map fun i => levels.getD (i + 1) 0 - levels.getD i 0

/-- The integration loop of main.cpp: running cumulative sum of the forecast
differences starting from the last training price. -/
def integrate (base : ℚ) : List ℚ → List ℚ
  | [] => []
  | d :: ds => (base + d) :: integrate (base + d) ds

/-- The comparison `em.mse < bestMse` of the order-selection loop, with
`none` playing the role of `+infinity` (the initial `bestMse` and the value
recorded for a failed fit). -/
def mseLt : Option ℚ → Option ℚ → Bool
  | some x, some y => decide (x < y)
  | some _, none => true
  | none, _ => false

/-- One iteration of the best-order sweep: replace the best-so-far record
`(bestOrder, bestMse)` exactly when the candidate's MSE is strictly lower. -/
def sweepStep (score : ℕ → Option ℚ) (st : ℕ × Option ℚ) (p : ℕ) : ℕ × Option ℚ :=
  if mseLt (score p) st.2 then (p, score p) else st

/-- The ascending order-selection sweep of main.cpp over candidate orders
`lo..hi`, starting from `bestOrder = lo` and `bestMse = +infinity`. -/
def sweep (score : ℕ → Option ℚ) (lo hi : ℕ) : ℕ × Option ℚ :=
  (List.range' lo (hi + 1 - lo)).foldl (sweepStep score) (lo, none)

/-- The per-order score of the sweep body in main.cpp: fit on the differenced
data, forecast `validPrices.length` steps, integrate from the last training
price, and take the MSE against the validation prices; a failed fit scores
`+infinity` (`none`). -/
def arScore (diffData validPrices : List ℚ) (lastTrain : ℚ) (p : ℕ) : Option ℚ :=
  match computeCoefficients diffData p with
  | .error _ => none
  | .ok coeffs =>
    let m : ARModel := ⟨diffData, p, coeffs⟩
    let forecastedDiff := forwardPredictSteps m validPrices.length
    let forecastedPrices := integrate lastTrain forecastedDiff
    some (computeErrors forecastedPrices validPrices).mse

/-- The order-selection loop of main.cpp specialised to its real pipeline. -/
def selectBestOrder (diffData validPrices : List ℚ) (lastTrain : ℚ)
    (lo hi : ℕ) : ℕ × Option ℚ :=
  sweep (arScore diffData validPrices lastTrain) lo hi

deriving instance DecidableEq for Except

/-! ### Helper lemmas -/

theorem sum_map_range' (f : ℕ → ℚ) (s n : ℕ) :
    ((List.range' s n).map f).sum = ∑ i ∈ Finset.Ico s (s + n), f i := by
  induction n generalizing s with
  | zero => simp
  | succ n ih =>
    rw [List.range'_succ, List.map_cons, List.sum_cons, ih,
      Finset.sum_eq_sum_Ico_succ_bot (by omega : s < s + (n + 1))]
    have h : s + 1 + n = s + (n + 1) := by omega
    rw [h]

/-! ### C10 -/

/-- C10: when the data-length precondition fails (`len(series) < order`),
`forwardPredict` signals no error and returns exactly `0`. -/
theorem forwardPredict_insufficient_returns_zero (m : ARModel)
    (h : m.data_.length < m.order_) : forwardPredict m = 0 := by
  unfold forwardPredict
  rw [if_pos h]

/-- Witness for C10 at the concrete model `⟨[5], 2, [1, 1]⟩`. -/
theorem forwardPredict_insufficient_returns_zero_witness :
    ([5] : List ℚ).length < 2 ∧ forwardPredict ⟨[5], 2, [1, 1]⟩ = 0 :=
  ⟨by decide, forwardPredict_insufficient_returns_zero ⟨[5], 2, [1, 1]⟩ (by decide)⟩

/-! ### C2 -/

/-- C2: for `p ≤ len(S)`, `computeCoefficients` succeeds iff the lag-0
autocorrelation is nonzero, reporting `DegenerateAutocorrelation` when it is
zero; and for `len(S) < p` it reports `InsufficientData`. -/
theorem fit_succeeds_iff_nonzero_lag0 (S : List ℚ) (p : ℕ) :
    (p ≤ S.length →
      ((∃ c, computeCoefficients S p = .ok c) ↔
        (computeAutocorrelation S p).getD 0 0 ≠ 0)
      ∧ ((computeAutocorrelation S p).getD 0 0 = 0 →
          computeCoefficients S p = .error .DegenerateAutocorrelation))
    ∧ (S.length < p → computeCoefficients S p = .error .InsufficientData) := by
  constructor
  · intro hp
    have hnl : ¬ S.length < p := not_lt.mpr hp
    have hcc : computeCoefficients S p =
        (if (computeAutocorrelation S p).getD 0 0 = 0
          then .error .DegenerateAutocorrelation
          else .ok ((List.range p).map fun i =>
            (levinsonDurbin (computeAutocorrelation S p) p).a (i + 1))) := by
      unfold computeCoefficients
      rw [if_neg hnl]
    by_cases h0 : (computeAutocorrelation S p).getD 0 0 = 0
    · rw [hcc, if_pos h0]
      constructor
      · constructor
        · rintro ⟨c, hc⟩
          exact absurd hc (by simp)
        · intro h
          exact absurd h0 h
      · intro _
        rfl
    · rw [hcc, if_neg h0]
      constructor
      · constructor
        · intro _
          exact h0
        · intro _
          exact ⟨_, rfl⟩
      · intro h
        exact absurd h h0
  · intro hl
    unfold computeCoefficients
    rw [if_pos hl]

/-- Witness for C2: `S = [1]`, `p = 1` (fit succeeds, lag-0 is `1`), and
`S = [0, 0]`, `p = 3` (insufficient data). -/
theorem fit_succeeds_iff_nonzero_lag0_witness :
    (∃ c, computeCoefficients [1] 1 = .ok c) ∧
    computeCoefficients [0, 0] 3 = .error .InsufficientData :=
  ⟨((fit_succeeds_iff_nonzero_lag0 [1] 1).1 (by decide)).1.mpr
      (by with_unfolding_all decide),
    (fit_succeeds_iff_nonzero_lag0 [0, 0] 3).2 (by decide)⟩

/-! ### C8 -/

/-- C8: for a non-empty series of length `n` and order `p ≤ n`, the
autocorrelation vector has length `p + 1` and entry `lag` equals
`(Σ_{i=lag}^{n-1} data[i]·data[i-lag]) / n`. -/
theorem autocorrelation_length_and_formula (data : List ℚ) (p : ℕ)
    (h0 : data ≠ []) (hp : p ≤ data.length) :
    (computeAutocorrelation data p).length = p + 1 ∧
    ∀ lag, lag ≤ p →
      (computeAutocorrelation data p).getD lag 0 =
        (∑ i ∈ Finset.Ico lag data.length, data.getD i 0 * data.getD (i - lag) 0)
          / (data.length : ℚ) := by
  constructor
  · simp [computeAutocorrelation]
  · intro lag hlag
    have hmem : lag < p + 1 := by omega
    have : (computeAutocorrelation data p).getD lag 0 =
        ((List.range' lag (data.length - lag)).map
          (fun i => data.getD i 0 * data.getD (i - lag) 0)).sum / (data.length : ℚ) := by
      unfold computeAutocorrelation
      rw [List.getD_eq_getElem?_getD, List.getElem?_map, List.getElem?_range hmem]
      rfl
    rw [this, sum_map_range']
    have : lag + (data.length - lag) = data.length := by omega
    rw [this]

/-- Witness for C8 at `data = [1, 2]`, `p = 1`. -/
theorem autocorrelation_length_and_formula_witness :
    (computeAutocorrelation [1, 2] 1).length = 1 + 1 ∧
    (computeAutocorrelation [1, 2] 1).getD 1 0 =
      (∑ i ∈ Finset.Ico 1 ([1, 2] : List ℚ).length,
        ([1, 2] : List ℚ).getD i 0 * ([1, 2] : List ℚ).getD (i - 1) 0)
        / (([1, 2] : List ℚ).length : ℚ) :=
  ⟨(autocorrelation_length_and_formula [1, 2] 1 (by decide) (by decide)).1,
    (autocorrelation_length_and_formula [1, 2] 1 (by decide) (by decide)).2 1 le_rfl⟩

/-! ### C4 -/

theorem integrate_cons (base d : ℚ) (ds : List ℚ) :
    integrate base (d :: ds) = (base + d) :: integrate (base + d) ds := rfl

theorem integrate_telescope (levels : List ℚ) (k j : ℕ) :
    integrate (levels.getD j 0)
      ((List.range' j k).map fun i => levels.getD (i + 1) 0 - levels.getD i 0) =
    (List.range' j k).map fun i => levels.getD (i + 1) 0 := by
  induction k generalizing j with
  | zero => rfl
  | succ k ih =>
    rw [List.range'_succ, List.map_cons, List.map_cons, integrate_cons]
    have hbase : levels.getD j 0 + (levels.getD (j + 1) 0 - levels.getD j 0) =
        levels.getD (j + 1) 0 := by ring
    rw [hbase]
    exact congrArg _ (ih (j + 1))

theorem difference_take (levels : List ℚ) (k : ℕ) (hk : k ≤ levels.length - 1) :
    (difference levels).take k =
      (List.range' 0 k).map fun i => levels.getD (i + 1) 0 - levels.getD i 0 := by
  unfold difference
  rw [← List.map_take, List.take_range, Nat.min_eq_left hk, List.range_eq_range']

theorem drop_one_take_eq_map_getD (levels : List ℚ) (k : ℕ)
    (hk : k ≤ levels.length - 1) :
    (levels.drop 1).take k = (List.range' 0 k).map fun i => levels.getD (i + 1) 0 := by
  apply List.ext_getElem
  · simp
    omega
  · intro i h1 h2
    have hi : i < k := by simpa using h2
    have hlen : 1 + i < levels.length := by omega
    rw [List.getElem_take, List.getElem_drop, List.getElem_map, List.getElem_range']
    rw [List.getD_eq_getElem levels 0 (by omega)]
    congr 1
    omega

/-- C4: for every level series of length ≥ 2 and `k ≤ len - 1`, integrating
the first `k` differences from `base = levels[0]` reconstructs
`levels[1..k+1]`; in particular `difference [100,102,101,105] = [2,-1,4]` and
`integrate 100 [2,-1,4] = [102,101,105]`. -/
theorem integrate_difference_roundtrip (levels : List ℚ)
    (h2 : 2 ≤ levels.length) (k : ℕ) (hk : k ≤ levels.length - 1) :
    integrate (levels.getD 0 0) ((difference levels).take k) = (levels.drop 1).take k
    ∧ difference [100, 102, 101, 105] = [2, -1, 4]
    ∧ integrate 100 [2, -1, 4] = [102, 101, 105] := by
  refine ⟨?_, by with_unfolding_all decide, by with_unfolding_all decide⟩
  rw [difference_take levels k hk, drop_one_take_eq_map_getD levels k hk]
  exact integrate_telescope levels k 0

/-- Witness for C4 at `levels = [100, 102, 101, 105]`, `k = 3`. -/
theorem integrate_difference_roundtrip_witness :
    integrate (([100, 102, 101, 105] : List ℚ).getD 0 0)
        ((difference [100, 102, 101, 105]).take 3) =
      (([100, 102, 101, 105] : List ℚ).drop 1).take 3 :=
  (integrate_difference_roundtrip [100, 102, 101, 105] (by decide) 3 (by decide)).1

/-! ### C5 -/

theorem stepsFold_head_stable (m : ARModel) (l : List ℕ) (st : List ℚ × List ℚ)
    (h : st.2 ≠ []) :
    ((l.foldl
      (fun (st : List ℚ × List ℚ) _ =>
        let pred := predictFromWindow m.coefficients_ st.1 m.order_
        (st.1.tail ++ [pred], st.2 ++ [pred])) st).2).head? = st.2.head? := by
  induction l generalizing st with
  | nil => rfl
  | cons x xs ih =>
    rw [List.foldl_cons]
    have hne : (st.2 ++ [predictFromWindow m.coefficients_ st.1 m.order_]) ≠ [] := by
      simp
    rw [ih _ hne]
    cases hst : st.2 with
    | nil => exact absurd hst h
    | cons y ys => simp [hst]

theorem predictFromWindow_trailing (m : ARModel) (hord : m.order_ ≤ m.data_.length) :
    predictFromWindow m.coefficients_ (m.data_.drop (m.data_.length - m.order_))
        m.order_ =
      ((List.range m.order_).map fun i =>
        m.coefficients_.getD i 0 * m.data_.getD (m.data_.length - 1 - i) 0).sum := by
  unfold predictFromWindow
  apply congrArg
  apply List.map_congr_left
  intro i hi
  have hilt : i < m.order_ := List.mem_range.mp hi
  apply congrArg
  rw [List.getD_eq_getElem?_getD, List.getD_eq_getElem?_getD, List.getElem?_drop]
  have h : m.data_.length - m.order_ + (m.order_ - 1 - i) = m.data_.length - 1 - i := by
    omega
  rw [h]

/-- C5: for every model with `order ≤ len(data)` and horizon `k ≥ 1`, the
first element of `forwardPredictSteps k` equals `forwardPredict`. -/
theorem forwardPredictSteps_head (m : ARModel) (k : ℕ) (hk : 1 ≤ k)
    (hord : m.order_ ≤ m.data_.length) :
    (forwardPredictSteps m k).head? = some (forwardPredict m) := by
  have hnl : ¬ m.data_.length < m.order_ := not_lt.mpr hord
  obtain ⟨k', rfl⟩ : ∃ k', k = k' + 1 := ⟨k - 1, by omega⟩
  unfold forwardPredictSteps
  rw [if_neg hnl, List.range_eq_range', List.range'_succ, List.foldl_cons]
  rw [stepsFold_head_stable m _ _ (by simp)]
  unfold forwardPredict
  rw [if_neg hnl]
  simp only [List.head?_append, List.nil_append, List.head?_cons]
  rw [predictFromWindow_trailing m hord]

/-- Witness for C5 at the model `⟨[1, 2, 3], 2, [1/2, 1/3]⟩`, `k = 3`. -/
theorem forwardPredictSteps_head_witness :
    (forwardPredictSteps ⟨[1, 2, 3], 2, [1/2, 1/3]⟩ 3).head? =
      some (forwardPredict ⟨[1, 2, 3], 2, [1/2, 1/3]⟩) :=
  forwardPredictSteps_head ⟨[1, 2, 3], 2, [1/2, 1/3]⟩ 3 (by decide) (by decide)

/-! ### C7 and C9 -/

theorem computeErrors_mse_nonneg (f a : List ℚ) : 0 ≤ (computeErrors f a).mse := by
  unfold computeErrors
  by_cases hc : f.length ≠ a.length ∨ f = []
  · rw [if_pos hc]
  · rw [if_neg hc]
    apply div_nonneg
    · apply List.sum_nonneg
      intro x hx
      obtain ⟨i, _, rfl⟩ := List.mem_map.mp hx
      exact mul_self_nonneg _
    · exact Nat.cast_nonneg _

/-- C7: for equal-length non-empty inputs MAPE equals
`(100/n) · Σ_{actual[i] ≠ 0} |forecast[i]-actual[i]|/|actual[i]|` with `n`
the full length; MAPE is always nonnegative; and MAPE is `0` when every
actual value is `0`. -/
theorem mape_formula_nonneg_and_zero :
    (∀ f a : List ℚ, f.length = a.length → f ≠ [] →
      (computeErrors f a).mape = 100 / (a.length : ℚ) *
        ∑ i ∈ Finset.range a.length,
          (if a.getD i 0 ≠ 0 then |f.getD i 0 - a.getD i 0| / |a.getD i 0| else 0))
    ∧ (∀ f a : List ℚ, 0 ≤ (computeErrors f a).mape)
    ∧ (∀ f a : List ℚ, (∀ x ∈ a, x = 0) → (computeErrors f a).mape = 0) := by
  refine ⟨?_, ?_, ?_⟩
  · intro f a hlen hne
    have hcond : ¬(f.length ≠ a.length ∨ f = []) := by
      push_neg
      exact ⟨hlen, hne⟩
    unfold computeErrors
    rw [if_neg hcond]
    dsimp only
    rw [List.range_eq_range', sum_map_range', hlen, Nat.zero_add,
      ← Finset.range_eq_Ico]
    have hterm : ∀ i ∈ Finset.range a.length,
        (if a.getD i 0 ≠ 0 then |(f.getD i 0 - a.getD i 0) / a.getD i 0| * 100 else 0)
          = (if a.getD i 0 ≠ 0
              then |f.getD i 0 - a.getD i 0| / |a.getD i 0| else 0) * 100 := by
      intro i _
      by_cases h : a.getD i 0 = 0
      · rw [if_neg (not_not_intro h), if_neg (not_not_intro h), zero_mul]
      · rw [if_pos h, if_pos h, abs_div]
    rw [Finset.sum_congr rfl hterm, ← Finset.sum_mul]
    ring
  · intro f a
    unfold computeErrors
    by_cases hc : f.length ≠ a.length ∨ f = []
    · rw [if_pos hc]
    · rw [if_neg hc]
      apply div_nonneg
      · apply List.sum_nonneg
        intro x hx
        obtain ⟨i, _, rfl⟩ := List.mem_map.mp hx
        split
        · positivity
        · exact le_refl 0
      · exact Nat.cast_nonneg _
  · intro f a hz
    unfold computeErrors
    by_cases hc : f.length ≠ a.length ∨ f = []
    · rw [if_pos hc]
    · rw [if_neg hc]
      push_neg at hc
      dsimp only
      have hterm : ∀ i ∈ List.range f.length,
          (if a.getD i 0 ≠ 0
            then |(f.getD i 0 - a.getD i 0) / a.getD i 0| * 100 else 0) = 0 := by
        intro i hi
        have hilt : i < a.length := by
          rw [← hc.1]
          exact List.mem_range.mp hi
        have ha : a.getD i 0 = 0 := by
          rw [List.getD_eq_getElem a 0 hilt]
          exact hz _ (List.getElem_mem hilt)
        rw [if_neg (not_not_intro ha)]
      rw [List.map_congr_left hterm]
      simp

/-- Witness for C7 at `f = [1, 2]`, `a = [2, 0]`. -/
theorem mape_formula_nonneg_and_zero_witness :
    (computeErrors [1, 2] [2, 0]).mape = 100 / (([2, 0] : List ℚ).length : ℚ) *
      ∑ i ∈ Finset.range ([2, 0] : List ℚ).length,
        (if ([2, 0] : List ℚ).getD i 0 ≠ 0
          then |([1, 2] : List ℚ).getD i 0 - ([2, 0] : List ℚ).getD i 0| /
            |([2, 0] : List ℚ).getD i 0|
          else 0) ∧
    (computeErrors [1, 2] [0, 0]).mape = 0 :=
  ⟨mape_formula_nonneg_and_zero.1 [1, 2] [2, 0] (by decide) (by decide),
    mape_formula_nonneg_and_zero.2.2 [1, 2] [0, 0] (by decide)⟩

/-- C9: mismatched or empty inputs yield the all-zero metrics record with no
error signal; equal non-empty inputs yield `mse = mean squared difference`
and `rmse = sqrt(mse)` (stated as `0 ≤ rmse` and `rmse² = mse`). -/
theorem computeErrors_defaults_and_mse :
    (∀ f a : List ℚ, (f.length ≠ a.length ∨ f = []) →
      computeErrors f a = ⟨0, 0⟩ ∧ rmse f a = 0)
    ∧ (∀ f a : List ℚ, f.length = a.length → f ≠ [] →
      (computeErrors f a).mse =
        (∑ i ∈ Finset.range f.length,
          (f.getD i 0 - a.getD i 0) * (f.getD i 0 - a.getD i 0)) / (f.length : ℚ)
      ∧ 0 ≤ rmse f a ∧ rmse f a ^ 2 = ((computeErrors f a).mse : ℝ)) := by
  constructor
  · intro f a hc
    have hz : computeErrors f a = ⟨0, 0⟩ := by
      unfold computeErrors
      rw [if_pos hc]
    refine ⟨hz, ?_⟩
    unfold rmse
    rw [hz]
    simp [Real.sqrt_zero]
  · intro f a hlen hne
    have hcond : ¬(f.length ≠ a.length ∨ f = []) := by
      push_neg
      exact ⟨hlen, hne⟩
    refine ⟨?_, Real.sqrt_nonneg _, ?_⟩
    · unfold computeErrors
      rw [if_neg hcond]
      dsimp only
      rw [List.range_eq_range', sum_map_range', Nat.zero_add,
        ← Finset.range_eq_Ico]
    · unfold rmse
      apply Real.sq_sqrt
      exact_mod_cast computeErrors_mse_nonneg f a

/-- Witness for C9 at the mismatched pair `([1], [])` and the equal pair
`([1, 3], [2, 1])`. -/
theorem computeErrors_defaults_and_mse_witness :
    computeErrors [1] [] = ⟨0, 0⟩ ∧
    (computeErrors [1, 3] [2, 1]).mse =
      (∑ i ∈ Finset.range ([1, 3] : List ℚ).length,
        (([1, 3] : List ℚ).getD i 0 - ([2, 1] : List ℚ).getD i 0) *
          (([1, 3] : List ℚ).getD i 0 - ([2, 1] : List ℚ).getD i 0)) /
        (([1, 3] : List ℚ).length : ℚ) :=
  ⟨(computeErrors_defaults_and_mse.1 [1] [] (by decide)).1,
    (computeErrors_defaults_and_mse.2 [1, 3] [2, 1] (by decide) (by decide)).1⟩

/-! ### C6 -/

theorem ldStep_e_ne (r : List ℚ) (st : LDState) (k i : ℕ) (h : i ≠ k) :
    (ldStep r st k).e i = st.e i := by
  unfold ldStep
  exact if_neg h

theorem ldFold_e_stable (r : List ℚ) (l : List ℕ) (st : LDState) (i : ℕ)
    (h : ∀ j ∈ l, i ≠ j) :
    (l.foldl (ldStep r) st).e i = st.e i := by
  induction l generalizing st with
  | nil => rfl
  | cons x xs ih =>
    rw [List.foldl_cons, ih _ fun j hj => h j (List.mem_cons_of_mem x hj)]
    exact ldStep_e_ne r st x i (h x (List.mem_cons_self x xs))

theorem levinsonDurbin_e_recurrence (r : List ℚ) (p k : ℕ) (h1 : 1 ≤ k)
    (h2 : k ≤ p) :
    ∃ lam, (levinsonDurbin r p).e k = (levinsonDurbin r p).e (k - 1) * (1 - lam * lam) := by
  have hsplit : List.range' 1 p =
      List.range' 1 (k - 1) ++ k :: List.range' (k + 1) (p - k) := by
    have h3 : List.range' k (p - k + 1) = k :: List.range' (k + 1) (p - k) :=
      List.range'_succ k (p - k) 1
    have h4 := List.range'_append 1 (k - 1) (p - k + 1) 1
    have h5 : 1 + 1 * (k - 1) = k := by omega
    have h6 : p - k + 1 + (k - 1) = p := by omega
    rw [h5, h6] at h4
    rw [← h4, h3]
  set st1 := (List.range' 1 (k - 1)).foldl (ldStep r) (ldInit r) with hst1
  have hfold : levinsonDurbin r p =
      (List.range' (k + 1) (p - k)).foldl (ldStep r) (ldStep r st1 k) := by
    unfold levinsonDurbin
    rw [hsplit, List.foldl_append, List.foldl_cons]
  have hek : (levinsonDurbin r p).e k = (ldStep r st1 k).e k := by
    rw [hfold]
    exact ldFold_e_stable r _ _ k fun j hj => by
      have := (List.mem_range'_1.mp hj).1
      omega
  have hek1 : (levinsonDurbin r p).e (k - 1) = st1.e (k - 1) := by
    rw [hfold]
    rw [ldFold_e_stable r _ _ (k - 1) fun j hj => by
      have := (List.mem_range'_1.mp hj).1
      omega]
    exact ldStep_e_ne r st1 k (k - 1) (by omega)
  refine ⟨lamOf r st1 k, ?_⟩
  rw [hek, hek1]
  unfold ldStep
  exact if_pos rfl

/-- C6 (amended): along the Levinson-Durbin recursion run by
`computeCoefficients` on any autocorrelation vector, the prediction error is
non-increasing at every step whose incoming error is nonnegative:
`0 ≤ e[k-1] → e[k] ≤ e[k-1]`.  (The unconditional claim is refuted by
`levinsonDurbin_e_not_monotone` below: once some `e[k]` turns negative —
possible because the in-place coefficient update can drive `|lambda| > 1` —
the next step can increase `e`.) -/
theorem levinsonDurbin_e_nonincreasing (data : List ℚ) (p k : ℕ) (h1 : 1 ≤ k)
    (h2 : k ≤ p)
    (he : 0 ≤ (levinsonDurbin (computeAutocorrelation data p) p).e (k - 1)) :
    (levinsonDurbin (computeAutocorrelation data p) p).e k ≤
      (levinsonDurbin (computeAutocorrelation data p) p).e (k - 1) := by
  obtain ⟨lam, hlam⟩ :=
    levinsonDurbin_e_recurrence (computeAutocorrelation data p) p k h1 h2
  rw [hlam]
  nlinarith [mul_self_nonneg lam]

/-- Witness for the amended C6 at `data = [1, -1, 1, -1]`, `p = 2`, `k = 1`. -/
theorem levinsonDurbin_e_nonincreasing_witness :
    0 ≤ (levinsonDurbin (computeAutocorrelation [1, -1, 1, -1] 2) 2).e 0 ∧
    (levinsonDurbin (computeAutocorrelation [1, -1, 1, -1] 2) 2).e 1 ≤
      (levinsonDurbin (computeAutocorrelation [1, -1, 1, -1] 2) 2).e 0 :=
  ⟨by with_unfolding_all decide,
    levinsonDurbin_e_nonincreasing [1, -1, 1, -1] 2 1 (by decide) (by decide)
      (by with_unfolding_all decide)⟩

/-- Counterexample to C6 as stated: on the series
`[-1, -2, -1, 1, 1, -1, -2, -1]` with order `6` the fit succeeds, yet
`e[6] > e[5]` (`e[5]` is negative, `e[6]` positive), so the prediction-error
sequence of a successful fit is not monotonically non-increasing. -/
theorem levinsonDurbin_e_not_monotone :
    (computeCoefficients [-1, -2, -1, 1, 1, -1, -2, -1] 6).isOk = true ∧
    (levinsonDurbin (computeAutocorrelation [-1, -2, -1, 1, 1, -1, -2, -1] 6) 6).e 5 <
      (levinsonDurbin (computeAutocorrelation [-1, -2, -1, 1, 1, -1, -2, -1] 6) 6).e 6 := by
  constructor
  · with_unfolding_all decide
  · with_unfolding_all decide

/-! ### C1 -/

/-- C1: the code's in-place inner update is not the simultaneous (snapshot)
update of the claim.  On the series `[0, 1, -1]` with order `3` both fits
succeed, but the code produces `a[2] = -25/48` (the `j = 2` update read the
already-updated `a[1]`) while the snapshot recursion of the spec produces
`a[2] = -1/2`; the coefficient vectors differ. -/
theorem computeCoefficients_ne_snapshot_recursion :
    computeCoefficients [0, 1, -1] 3 = .ok [-3/4, -25/48, -1/4] ∧
    computeCoefficientsRef [0, 1, -1] 3 = .ok [-3/4, -1/2, -1/4] ∧
    computeCoefficients [0, 1, -1] 3 ≠ computeCoefficientsRef [0, 1, -1] 3 := by
  refine ⟨?_, ?_, ?_⟩ <;> with_unfolding_all decide

/-! ### C3 -/

theorem mseLt_none_left (x : Option ℚ) : mseLt none x = false := rfl

theorem sweepFold_stays (score : ℕ → Option ℚ) (l : List ℕ) (st : ℕ × Option ℚ)
    (h : ∀ q ∈ l, mseLt (score q) st.2 = false) :
    l.foldl (sweepStep score) st = st := by
  induction l with
  | nil => rfl
  | cons x xs ih =>
    rw [List.foldl_cons]
    unfold sweepStep
    rw [if_neg (by simp [h x (List.mem_cons_self x xs)])]
    exact ih fun q hq => h q (List.mem_cons_of_mem x hq)

theorem sweepFold_dominated (score : ℕ → Option ℚ) (p1 : ℕ) (l : List ℕ)
    (st : ℕ × Option ℚ)
    (hl : ∀ q ∈ l, mseLt (score p1) (score q) = true)
    (hst : st.2 = none ∨ mseLt (score p1) st.2 = true) :
    (l.foldl (sweepStep score) st).2 = none ∨
      mseLt (score p1) (l.foldl (sweepStep score) st).2 = true := by
  induction l generalizing st with
  | nil => exact hst
  | cons x xs ih =>
    rw [List.foldl_cons]
    apply ih
    · intro q hq
      exact hl q (List.mem_cons_of_mem x hq)
    · unfold sweepStep
      by_cases hx : mseLt (score x) st.2 = true
      · rw [if_pos hx]
        exact Or.inr (hl x (List.mem_cons_self x xs))
      · rw [if_neg hx]
        exact hst

theorem sweepFold_none_inv (score : ℕ → Option ℚ) (l : List ℕ)
    (st : ℕ × Option ℚ) (h : (l.foldl (sweepStep score) st).2 = none) :
    l.foldl (sweepStep score) st = st ∧ st.2 = none := by
  induction l generalizing st with
  | nil => exact ⟨rfl, h⟩
  | cons x xs ih =>
    rw [List.foldl_cons] at h ⊢
    obtain ⟨hfold, hst'⟩ := ih (sweepStep score st x) h
    have hnofire : sweepStep score st x = st := by
      by_cases hx : mseLt (score x) st.2 = true
      · exfalso
        have hsnd : (sweepStep score st x).2 = score x := by
          unfold sweepStep
          rw [if_pos hx]
        rw [hsnd] at hst'
        rw [hst', mseLt_none_left] at hx
        exact Bool.noConfusion hx
      · unfold sweepStep
        rw [if_neg hx]
    rw [hnofire] at hfold hst' ⊢
    exact ⟨hfold, hst'⟩

/-- C3: in the ascending sweep with strict `<` replacement, if candidate `p1`
is weakly best over the whole range and strictly better than every candidate
scanned before it, then `p1` is returned as `bestOrder`; in particular when a
later candidate `p2` ties `p1` exactly, the lower order `p1` wins. -/
theorem selectBestOrder_ties_go_to_lower (diffData validPrices : List ℚ)
    (lastTrain : ℚ) (lo hi p1 p2 : ℕ) (hlo : lo ≤ p1) (hp1 : p1 ≤ hi)
    (hmin : ∀ q, lo ≤ q → q ≤ hi →
      mseLt (arScore diffData validPrices lastTrain q)
        (arScore diffData validPrices lastTrain p1) = false)
    (hfirst : ∀ q, lo ≤ q → q < p1 →
      mseLt (arScore diffData validPrices lastTrain p1)
        (arScore diffData validPrices lastTrain q) = true)
    (htie : p1 < p2) (hp2 : p2 ≤ hi)
    (heq : arScore diffData validPrices lastTrain p1 =
      arScore diffData validPrices lastTrain p2) :
    (selectBestOrder diffData validPrices lastTrain lo hi).1 = p1 := by
  set score := arScore diffData validPrices lastTrain with hscore
  have hsplit : List.range' lo (hi + 1 - lo) =
      List.range' lo (p1 - lo) ++ p1 :: List.range' (p1 + 1) (hi - p1) := by
    have h3 : List.range' p1 (hi - p1 + 1) = p1 :: List.range' (p1 + 1) (hi - p1) :=
      List.range'_succ p1 (hi - p1) 1
    have h4 := List.range'_append lo (p1 - lo) (hi - p1 + 1) 1
    have h5 : lo + 1 * (p1 - lo) = p1 := by omega
    have h6 : hi - p1 + 1 + (p1 - lo) = hi + 1 - lo := by omega
    rw [h5, h6] at h4
    rw [← h4, h3]
  unfold selectBestOrder sweep
  rw [hsplit, List.foldl_append, List.foldl_cons]
  set st1 := (List.range' lo (p1 - lo)).foldl (sweepStep score) (lo, none) with hst1
  have hdom : st1.2 = none ∨ mseLt (score p1) st1.2 = true := by
    apply sweepFold_dominated
    · intro q hq
      obtain ⟨hq1, hq2⟩ := List.mem_range'_1.mp hq
      exact hfirst q hq1 (by omega)
    · exact Or.inl rfl
  by_cases hc : mseLt (score p1) st1.2 = true
  · have hstep : sweepStep score st1 p1 = (p1, score p1) := by
      unfold sweepStep
      rw [if_pos hc]
    rw [hstep]
    have hstays : (List.range' (p1 + 1) (hi - p1)).foldl (sweepStep score)
        (p1, score p1) = (p1, score p1) := by
      apply sweepFold_stays
      intro q hq
      obtain ⟨hq1, hq2⟩ := List.mem_range'_1.mp hq
      exact hmin q (by omega) (by omega)
    rw [hstays]
  · have hnone : st1.2 = none := by
      rcases hdom with h | h
      · exact h
      · exact absurd h hc
    have hsp : score p1 = none := by
      cases hsx : score p1 with
      | none => rfl
      | some y =>
        exfalso
        rw [hsx, hnone] at hc
        exact hc rfl
    have hp1lo : p1 = lo := by
      by_contra hne
      have hlt : lo < p1 := by omega
      have := hfirst lo le_rfl hlt
      rw [hsp, mseLt_none_left] at this
      exact Bool.noConfusion this
    have hinit : st1 = (lo, none) := (sweepFold_none_inv score _ _ hnone).1
    have hstep : sweepStep score st1 p1 = st1 := by
      unfold sweepStep
      rw [if_neg]
      rw [hinit, hsp]
      simp [mseLt_none_left]
    rw [hstep]
    have hstays : (List.range' (p1 + 1) (hi - p1)).foldl (sweepStep score) st1 =
        st1 := by
      apply sweepFold_stays
      intro q hq
      obtain ⟨hq1, hq2⟩ := List.mem_range'_1.mp hq
      have := hmin q (by omega) (by omega)
      rw [hsp] at this
      rw [hinit]
      exact this
    rw [hstays, hinit, hp1lo]

/-- Witness for C3: on all-zero differenced data every fit fails, so orders
`1` and `2` tie (both score `+infinity`); the sweep over `1..2` returns the
lower order `1`. -/
theorem selectBestOrder_ties_go_to_lower_witness :
    (selectBestOrder [0, 0, 0] [1] 5 1 2).1 = 1 :=
  selectBestOrder_ties_go_to_lower [0, 0, 0] [1] 5 1 2 1 2 le_rfl (by decide)
    (fun q h1 h2 => by
      have : q = 1 ∨ q = 2 := by omega
      rcases this with rfl | rfl <;> with_unfolding_all decide)
    (fun q h1 h2 => by omega)
    (by decide) (by decide) (by with_unfolding_all decide)

end ARPrediction

